import Mathlib

/-!
# Verification of the `api-resources` discovery/presentation pipeline

Shallow embedding of
`staging/src/k8s.io/kubectl/pkg/cmd/apiresources/apiresources.go`:
the data model (`metav1.APIResource`, `metav1.APIResourceList`,
`groupResource`), the option set (`APIResourceOptions`), validation
(`Validate`), the ingestion/filter loop, the flat-list construction and the
stable sort of `RunAPIResources`, together with theorems about the
filtering, sorting, stability, error-propagation and empty-catalog
behaviour of that code.

Go strings are modelled as Lean `String`s; Go's byte-wise string
comparison (`strings.Compare`) agrees with the codepoint-lexicographic
order on `String` because UTF-8 encoding is order-preserving.
-/

namespace KubectlAPIResources

/-- Embedding of `metav1.APIResource` (the fields the command reads:
name, singular name is unused, group/version as carried on the record,
kind, namespaced flag, verbs, short names, categories). -/
structure APIResource where
  Name : String
  Group : String
  Version : String
  Kind : String
  Namespaced : Bool
  Verbs : List String
  ShortNames : List String
  Categories : List String
deriving DecidableEq, Repr

/-- Embedding of `metav1.TypeMeta` (the two fields the command sets/reads). -/
structure TypeMeta where
  Kind : String
  APIVersion : String
deriving DecidableEq, Repr

/-- Embedding of `metav1.APIResourceList`: a group-version bucket. -/
structure APIResourceList where
  typeMeta : TypeMeta
  GroupVersion : String
  APIResources : List APIResource
deriving DecidableEq, Repr

/-- Embedding of the source's `groupResource` struct: APIGroup,
APIGroupVersion and the resource itself. -/
structure groupResource where
  APIGroup : String
  APIGroupVersion : String
  APIResource : APIResource
deriving DecidableEq, Repr

/-- Embedding of `schema.GroupVersion`. -/
structure GroupVersion where
  Group : String
  Version : String
deriving DecidableEq, Repr

/-- The fields of `APIResourceOptions` that `Validate`/`RunAPIResources`
read (the discovery client, IO streams and print flags are external
collaborators; the printer's outcome is passed as a parameter below). -/
structure APIResourceOptions where
  SortBy : String
  APIGroup : String
  Namespaced : Bool
  Verbs : List String
  Cached : Bool
  Categories : List String
  groupChanged : Bool
  nsChanged : Bool
deriving DecidableEq, Repr

/-- Modelled from the spec: `schema.ParseGroupVersion` lives in
apimachinery, outside `src/`.  Per the spec's glossary a group-version is
"an API group (possibly empty, meaning the core group) and a version
string, e.g. `apps/v1`", and §7 classifies malformed group-version
strings as parse errors.  The standard contract: the empty string and
`"/"` parse to the empty group-version; no slash means a core-group
version; exactly one slash splits into group and version (text before the
first slash, text after it); more than one slash is malformed. -/
def ParseGroupVersion (gv : String) : Option GroupVersion :=
  if gv = "" ∨ gv = "/" then some { Group := "", Version := "" }
  else
    match gv.data.count '/' with
    | 0 => some { Group := "", Version := gv }
    | 1 => some { Group := ⟨gv.data.takeWhile (fun c => c ≠ '/')⟩,
                  Version := ⟨(gv.data.dropWhile (fun c => c ≠ '/')).tail⟩ }
    | _ => none

/-- Modelled from the spec: `schema.GroupVersion.String` lives in
apimachinery, outside `src/`.  Per the spec's glossary it "puts group and
version into a single group/version string"; a core-group (empty-group)
value renders as the bare version. -/
def gvString (gv : GroupVersion) : String :=
  if gv.Group ≠ "" then gv.Group ++ "/" ++ gv.Version else gv.Version

/-- The filter in the inner loop of `RunAPIResources` (lines 296–315): a
resource is kept iff its verb list is non-empty, the api-group filter
(when the flag was changed) matches the parsed group, the namespaced
filter (when the flag was changed) matches the resource's flag, every
requested verb is among the resource's verbs, and every requested
category is among the resource's categories.  Each `if … then false`
mirrors one `continue`. -/
def keepResource (o : APIResourceOptions) (gv : GroupVersion) (r : APIResource) : Bool :=
  if r.Verbs = [] then false
  else if o.groupChanged = true ∧ o.APIGroup ≠ gv.Group then false
  else if o.nsChanged = true ∧ o.Namespaced ≠ r.Namespaced then false
  else if o.Verbs ≠ [] ∧ ¬ (∀ v ∈ o.Verbs, v ∈ r.Verbs) then false
  else if o.Categories ≠ [] ∧ ¬ (∀ c ∈ o.Categories, c ∈ r.Categories) then false
  else true

/-- One iteration of the outer loop of `RunAPIResources` (lines 280–325):
a bucket with no resources is skipped (`continue`), a bucket whose
group-version fails to parse is skipped (`continue`); otherwise the
surviving resources are appended to `resources` as `groupResource`
entries and, as the same filtered slice, to `allResources` inside a fresh
`APIResourceList` whose TypeMeta is `APIResourceList`/`v1`. -/
def processList (o : APIResourceOptions) (list : APIResourceList) :
    Option (List groupResource × APIResourceList) :=
  if list.APIResources = [] then none
  else
    match ParseGroupVersion list.GroupVersion with
    | none => none
    | some gv =>
      let kept := list.APIResources.filter (keepResource o gv)
      some (kept.map (fun r =>
              { APIGroup := gv.Group, APIGroupVersion := gvString gv, APIResource := r }),
            { typeMeta := { Kind := "APIResourceList", APIVersion := "v1" },
              GroupVersion := gvString gv,
              APIResources := kept })

/-- The whole ingestion loop: the `resources` slice (first component) and
the `allResources` slice (second component) accumulated over the buckets
in catalog order. -/
def ingest (o : APIResourceOptions) (lists : List APIResourceList) :
    List groupResource × List APIResourceList :=
  let processed := lists.filterMap (processList o)
  ((processed.map Prod.fst).flatten, processed.map Prod.snd)

/-- The flat list construction of lines 333–341.  The Go code reads
`allResources[0]` unconditionally, so an empty `allResources` slice is an
index-out-of-range fault, modelled as `none`. -/
def mkFlatList (allResources : List APIResourceList) : Option APIResourceList :=
  match allResources with
  | [] => none
  | first :: _ =>
    some { typeMeta := { Kind := first.typeMeta.Kind, APIVersion := first.typeMeta.APIVersion },
           GroupVersion := "",
           APIResources := (allResources.map APIResourceList.APIResources).flatten }

/-- Byte-wise lexicographic "strictly less" on character lists, the order
underlying Go's `strings.Compare`: the first differing position decides,
and a proper prefix is smaller.  Comparing Unicode codepoints positionwise
agrees with comparing the UTF-8 byte sequences because UTF-8 encoding is
order-preserving. -/
def charListLt : List Char → List Char → Bool
  | [], [] => false
  | [], _ :: _ => true
  | _ :: _, [] => false
  | a :: as, b :: bs =>
    if a < b then true
    else if b < a then false
    else charListLt as bs

/-- Byte-wise lexicographic "strictly less" on strings:
`strings.Compare(a, b) < 0`. -/
def strLt (a b : String) : Bool :=
  charListLt a.data b.data

/-- Byte-wise lexicographic "at most" on strings:
`strings.Compare(a, b) <= 0`, i.e. `b` is not strictly below `a`. -/
def strLE (a b : String) : Prop :=
  strLt b a = false

/-- Embedding of `sortableResource.compareValues` (lines 414–422): the Go
`switch` on the sort key, as an if-chain over the string literals. -/
def compareValues (sortBy : String) (a b : groupResource) : String × String :=
  if sortBy = "name" then (a.APIResource.Name, b.APIResource.Name)
  else if sortBy = "kind" then (a.APIResource.Kind, b.APIResource.Kind)
  else (a.APIGroup, b.APIGroup)

/-- Embedding of `sortableResource.Less` (lines 404–412):
`strings.Compare(x, y) > 0` is `strLt y x`, `== 0` is `x = y`; on equal
primary fields the tie-break is resource name, byte-wise ascending. -/
def sortLess (sortBy : String) (a b : groupResource) : Bool :=
  let xy := compareValues sortBy a b
  if strLt xy.2 xy.1 then false
  else if xy.1 = xy.2 then strLt a.APIResource.Name b.APIResource.Name
  else true

/-- The full comparison key `sortableResource.Less` orders by: the primary
field selected by the sort key, then the resource name as tie-break. -/
def sortKey (sortBy : String) (e : groupResource) : String × String :=
  if sortBy = "name" then (e.APIResource.Name, e.APIResource.Name)
  else if sortBy = "kind" then (e.APIResource.Kind, e.APIResource.Name)
  else (e.APIGroup, e.APIResource.Name)

/-- The reflexive closure of `sortLess`, read as "`a` may come no later
than `b`": `sort.Stable` guarantees an output in which no later element
is `Less` than an earlier one, i.e. adjacent elements satisfy `sortLE`. -/
def sortLE (sortBy : String) (a b : groupResource) : Prop :=
  sortLess sortBy b a = false

instance (sortBy : String) : DecidableRel (sortLE sortBy) :=
  fun a b => inferInstanceAs (Decidable (sortLess sortBy b a = false))

/-- Embedding of `sort.Stable(sortableResource{resources, o.SortBy})`
(line 344).  `sort.Stable`'s contract — a permutation that is sorted with
respect to `Less` and keeps the original relative order of
`Less`-equivalent elements — determines the output uniquely because
`sortableResource.Less` is a strict weak order; stable insertion sort
computes that unique permutation. -/
def sortStable (sortBy : String) (l : List groupResource) : List groupResource :=
  l.insertionSort (sortLE sortBy)

/-- What `RunAPIResources` produces when it does not fault: the sorted
`resources` slice, the flat list handed to `o.PrintObj`, and the value it
returns. -/
structure RunOutcome where
  resources : List groupResource
  flatList : APIResourceList
  retErr : Option String
deriving DecidableEq, Repr

/-- Embedding of `RunAPIResources` (lines 262–384).  External effects are
parameters: `lists`/`fetchErr` are what `ServerPreferredResources`
returned (the error, when present, is appended to the local `errs` slice,
which the function never reads again), and `printErr` is the outcome of
the final `o.PrintObj(flatList, w)` call, which is what the function
returns.  Header writing (lines 327–331) only fails on sink write errors
and is not modelled.  `none` is the index-out-of-range fault at
`allResources[0]` (line 335) when `allResources` is empty. -/
def RunAPIResources (o : APIResourceOptions) (lists : List APIResourceList)
    (fetchErr printErr : Option String) : Option RunOutcome :=
  let errs : List String := match fetchErr with
    | some e => [e]
    | none => []
  let ingested := ingest o lists
  match mkFlatList ingested.2 with
  | none => none
  | some flat =>
    -- `errs` is dead from here on in the Go code: the commented-out
    -- aggregate return is gone and the function returns PrintObj's result.
    let _ := errs
    some { resources := sortStable o.SortBy ingested.1,
           flatList := flat,
           retErr := printErr }

/-- Embedding of `Validate` (lines 205–213): a non-empty sort key must be
one of the supported sort types `""`, `"name"`, `"kind"`. -/
def Validate (o : APIResourceOptions) : Option String :=
  let supportedSortTypes : List String := ["", "name", "kind"]
  if o.SortBy.length > 0 then
    if ¬ (o.SortBy ∈ supportedSortTypes) then
      some "--sort-by accepts only name or kind"
    else none
  else none

/-- The command's `Run` sequencing (lines 186–190): `Validate` runs before
`RunAPIResources`, and `cmdutil.CheckErr` aborts the invocation on a
validation error, so the pipeline (and the catalog fetch inside it) never
runs and nothing is printed. -/
def cmdRun (o : APIResourceOptions) (lists : List APIResourceList)
    (fetchErr printErr : Option String) : Except String (Option RunOutcome) :=
  match Validate o with
  | some e => Except.error e
  | none => Except.ok (RunAPIResources o lists fetchErr printErr)

/-! Concrete data used to exercise the definitions (spec §8, Scenario A). -/

/-- The `deployments` resource of Scenario A. -/
def deployments : APIResource :=
  { Name := "deployments", Group := "", Version := "", Kind := "Deployment",
    Namespaced := true, Verbs := ["get", "list"], ShortNames := ["deploy"],
    Categories := ["all"] }

/-- The `namespaces` resource of Scenario A. -/
def namespacesRes : APIResource :=
  { Name := "namespaces", Group := "", Version := "", Kind := "Namespace",
    Namespaced := false, Verbs := ["get", "list"], ShortNames := ["ns"],
    Categories := [] }

/-- The `apps/v1` bucket of Scenario A. -/
def appsBucket : APIResourceList :=
  { typeMeta := { Kind := "APIResourceList", APIVersion := "v1" },
    GroupVersion := "apps/v1", APIResources := [deployments] }

/-- The core `v1` bucket of Scenario A. -/
def coreBucket : APIResourceList :=
  { typeMeta := { Kind := "APIResourceList", APIVersion := "v1" },
    GroupVersion := "v1", APIResources := [namespacesRes] }

/-- A bucket whose group-version string does not parse (two slashes). -/
def badGVBucket : APIResourceList :=
  { typeMeta := { Kind := "APIResourceList", APIVersion := "v1" },
    GroupVersion := "a/b/c", APIResources := [deployments] }

/-- A bucket the ingestion loop drops because it lists no resources. -/
def emptyBucket : APIResourceList :=
  { typeMeta := { Kind := "APIResourceList", APIVersion := "v1" },
    GroupVersion := "batch/v1", APIResources := [] }

/-- Options with every filter inactive and no sort key. -/
def noFilter : APIResourceOptions :=
  { SortBy := "", APIGroup := "", Namespaced := true, Verbs := [], Cached := false,
    Categories := [], groupChanged := false, nsChanged := false }

/-- Options with all four filters active, as set by
`--api-group=apps --namespaced=true --verbs=get --categories=all`. -/
def filterOpts : APIResourceOptions :=
  { SortBy := "", APIGroup := "apps", Namespaced := true, Verbs := ["get"], Cached := false,
    Categories := ["all"], groupChanged := true, nsChanged := true }

/-- Options with no filters and `--sort-by=name`. -/
def sortNameOpts : APIResourceOptions :=
  { noFilter with SortBy := "name" }

/-- Options with an unsupported sort key (spec §8, Scenario D). -/
def bogusOpts : APIResourceOptions :=
  { noFilter with SortBy := "bogus" }

/-- The `groupResource` entry built for `deployments` out of `appsBucket`. -/
def depEntry : groupResource :=
  { APIGroup := "apps", APIGroupVersion := "apps/v1", APIResource := deployments }

/-- The `groupResource` entry built for `namespaces` out of `coreBucket`. -/
def nsEntry : groupResource :=
  { APIGroup := "", APIGroupVersion := "v1", APIResource := namespacesRes }

/-- The outcome of `RunAPIResources` on Scenario A's catalog with no
filters and no sort key. -/
def scenarioAOutcome : RunOutcome :=
  { resources := [nsEntry, depEntry],
    flatList := { typeMeta := { Kind := "APIResourceList", APIVersion := "v1" },
                  GroupVersion := "",
                  APIResources := [deployments, namespacesRes] },
    retErr := none }

/-! ## Helper lemmas about ingestion -/

theorem of_keepResource {o : APIResourceOptions} {gv : GroupVersion} {r : APIResource}
    (h : keepResource o gv r = true) :
    r.Verbs ≠ [] ∧
    (o.groupChanged = true → o.APIGroup = gv.Group) ∧
    (o.nsChanged = true → o.Namespaced = r.Namespaced) ∧
    (∀ v ∈ o.Verbs, v ∈ r.Verbs) ∧
    (∀ c ∈ o.Categories, c ∈ r.Categories) := by
  unfold keepResource at h
  split_ifs at h with h1 h2 h3 h4 h5
  refine ⟨h1, ?_, ?_, ?_, ?_⟩
  · intro hg
    by_contra hne
    exact h2 ⟨hg, hne⟩
  · intro hn
    by_contra hne
    exact h3 ⟨hn, hne⟩
  · intro v hv
    have hne : o.Verbs ≠ [] := by
      intro he
      rw [he] at hv
      cases hv
    exact not_not.mp (not_and.mp h4 hne) v hv
  · intro c hc
    have hne : o.Categories ≠ [] := by
      intro he
      rw [he] at hc
      cases hc
    exact not_not.mp (not_and.mp h5 hne) c hc

theorem processList_fst_mem {o : APIResourceOptions} {l : APIResourceList}
    {pr : List groupResource × APIResourceList} {e : groupResource}
    (hp : processList o l = some pr) (he : e ∈ pr.1) :
    ∃ gv, ParseGroupVersion l.GroupVersion = some gv ∧
      ∃ r ∈ l.APIResources, keepResource o gv r = true ∧
        e = { APIGroup := gv.Group, APIGroupVersion := gvString gv, APIResource := r } := by
  unfold processList at hp
  split_ifs at hp
  cases hgv : ParseGroupVersion l.GroupVersion with
  | none => rw [hgv] at hp; cases hp
  | some gv =>
    rw [hgv] at hp
    cases hp
    refine ⟨gv, rfl, ?_⟩
    rcases List.mem_map.mp he with ⟨r, hr, rfl⟩
    exact ⟨r, List.mem_of_mem_filter hr, List.of_mem_filter hr, rfl⟩

theorem processList_snd_mem {o : APIResourceOptions} {l : APIResourceList}
    {pr : List groupResource × APIResourceList} {r : APIResource}
    (hp : processList o l = some pr) (hr : r ∈ pr.2.APIResources) :
    ∃ gv, keepResource o gv r = true := by
  unfold processList at hp
  split_ifs at hp
  cases hgv : ParseGroupVersion l.GroupVersion with
  | none => rw [hgv] at hp; cases hp
  | some gv =>
    rw [hgv] at hp
    cases hp
    exact ⟨gv, List.of_mem_filter hr⟩

theorem mem_ingest_fst {o : APIResourceOptions} {lists : List APIResourceList}
    {e : groupResource} (he : e ∈ (ingest o lists).1) :
    ∃ gv, keepResource o gv e.APIResource = true ∧ e.APIGroup = gv.Group := by
  unfold ingest at he
  rcases List.mem_flatten.mp he with ⟨sub, hsub, hesub⟩
  rcases List.mem_map.mp hsub with ⟨pr, hpr, rfl⟩
  rcases List.mem_filterMap.mp hpr with ⟨l, _, hp⟩
  rcases processList_fst_mem hp hesub with ⟨gv, _, r, _, hk, rfl⟩
  exact ⟨gv, hk, rfl⟩

theorem mem_ingest_snd {o : APIResourceOptions} {lists : List APIResourceList}
    {r : APIResource}
    (hr : r ∈ (((ingest o lists).2).map APIResourceList.APIResources).flatten) :
    ∃ gv, keepResource o gv r = true := by
  unfold ingest at hr
  rcases List.mem_flatten.mp hr with ⟨sub, hsub, hrsub⟩
  rcases List.mem_map.mp hsub with ⟨al, hal, rfl⟩
  rcases List.mem_map.mp hal with ⟨pr, hpr, rfl⟩
  rcases List.mem_filterMap.mp hpr with ⟨l, _, hp⟩
  exact processList_snd_mem hp hrsub

theorem mkFlatList_some {allResources : List APIResourceList} {fl : APIResourceList}
    (h : mkFlatList allResources = some fl) :
    fl.APIResources = (allResources.map APIResourceList.APIResources).flatten := by
  cases allResources with
  | nil => cases h
  | cons first rest =>
    unfold mkFlatList at h
    cases h
    rfl

theorem RunAPIResources_some {o : APIResourceOptions} {lists : List APIResourceList}
    {fetchErr printErr : Option String} {out : RunOutcome}
    (h : RunAPIResources o lists fetchErr printErr = some out) :
    out.resources = sortStable o.SortBy (ingest o lists).1 ∧
    out.flatList.APIResources = (((ingest o lists).2).map APIResourceList.APIResources).flatten ∧
    out.retErr = printErr := by
  unfold RunAPIResources at h
  dsimp only at h
  cases hm : mkFlatList (ingest o lists).2 with
  | none => rw [hm] at h; cases h
  | some fl =>
    rw [hm] at h
    cases h
    exact ⟨rfl, mkFlatList_some hm, rfl⟩

theorem processList_proj {o : APIResourceOptions} {l : APIResourceList}
    {pr : List groupResource × APIResourceList} (hp : processList o l = some pr) :
    pr.1.map groupResource.APIResource = pr.2.APIResources := by
  unfold processList at hp
  split_ifs at hp
  cases hgv : ParseGroupVersion l.GroupVersion with
  | none => rw [hgv] at hp; cases hp
  | some gv =>
    rw [hgv] at hp
    cases hp
    rw [List.map_map]
    exact List.map_id _

theorem ingest_proj (o : APIResourceOptions) (lists : List APIResourceList) :
    ((ingest o lists).1).map groupResource.APIResource =
    (((ingest o lists).2).map APIResourceList.APIResources).flatten := by
  unfold ingest
  dsimp only
  rw [List.map_flatten, List.map_map, List.map_map]
  congr 1
  apply List.map_congr_left
  intro pr hpr
  rcases List.mem_filterMap.mp hpr with ⟨l, -, hp⟩
  exact processList_proj hp

theorem ingest_sortBy (o : APIResourceOptions) (s : String) (lists : List APIResourceList) :
    ingest { o with SortBy := s } lists = ingest o lists := by
  cases o
  rfl

theorem length_zero_eq_empty {s : String} (h : ¬ s.length > 0) : s = "" := by
  cases s with
  | mk d =>
    simp only [gt_iff_lt, not_lt, Nat.le_zero, String.length] at h
    simp [List.length_eq_zero.mp h]

theorem Validate_none_or_msg (o : APIResourceOptions) :
    Validate o = none ∨ Validate o = some "--sort-by accepts only name or kind" := by
  unfold Validate
  split_ifs <;> simp
  tauto

/-! ## The order underlying the sort -/

theorem charListLt_iff : ∀ as bs : List Char,
    charListLt as bs = true ↔ List.Lex (· < ·) as bs
  | [], [] => by
    constructor
    · intro h
      exact Bool.noConfusion h
    · intro h
      exact absurd h (List.Lex.not_nil_right _ _)
  | [], b :: bs => iff_of_true rfl List.Lex.nil
  | a :: as, [] => by
    constructor
    · intro h
      exact Bool.noConfusion h
    · intro h
      exact absurd h (List.Lex.not_nil_right _ _)
  | a :: as, b :: bs => by
    unfold charListLt
    split_ifs with h1 h2
    · exact iff_of_true rfl (List.Lex.rel h1)
    · refine iff_of_false (by simp) ?_
      intro hlex
      cases hlex with
      | cons h => exact absurd h2 (lt_irrefl _)
      | rel h => exact absurd h h1
    · have hab : a = b := le_antisymm (not_lt.mp h2) (not_lt.mp h1)
      subst hab
      rw [charListLt_iff as bs]
      constructor
      · exact List.Lex.cons
      · intro h
        cases h with
        | cons h => exact h
        | rel h => exact absurd h h1

theorem strLt_iff (a b : String) : strLt a b = true ↔ List.Lex (· < ·) a.data b.data :=
  charListLt_iff a.data b.data

theorem strLt_false_iff (a b : String) :
    strLt a b = false ↔ ¬ List.Lex (· < ·) a.data b.data := by
  rw [← Bool.not_eq_true, strLt_iff]

theorem strLE_iff (a b : String) : strLE a b ↔ ¬ List.Lex (· < ·) b.data a.data := by
  unfold strLE
  rw [strLt_false_iff]

theorem lex_trichotomy (x y : List Char) :
    List.Lex (· < ·) x y ∨ x = y ∨ List.Lex (· < ·) y x :=
  trichotomous_of (List.Lex (· < ·)) x y

theorem not_lex_trans {x y z : List Char}
    (h1 : ¬ List.Lex (· < ·) y x) (h2 : ¬ List.Lex (· < ·) z y) :
    ¬ List.Lex (· < ·) z x := by
  intro h
  rcases lex_trichotomy y x with hyx | heq | hxy
  · exact h1 hyx
  · subst heq
    exact h2 h
  · exact h2 (trans_of (List.Lex (· < ·)) h hxy)

theorem sortKey_name (e : groupResource) :
    sortKey "name" e = (e.APIResource.Name, e.APIResource.Name) := rfl

theorem sortKey_kind (e : groupResource) :
    sortKey "kind" e = (e.APIResource.Kind, e.APIResource.Name) := rfl

theorem sortKey_default (e : groupResource) :
    sortKey "" e = (e.APIGroup, e.APIResource.Name) := rfl

theorem sortKey_snd (s : String) (e : groupResource) :
    (sortKey s e).2 = e.APIResource.Name := by
  unfold sortKey
  split_ifs <;> rfl

theorem compareValues_eq_sortKey (s : String) (a b : groupResource) :
    compareValues s a b = ((sortKey s a).1, (sortKey s b).1) := by
  unfold compareValues sortKey
  split_ifs <;> rfl

theorem sortLess_iff (s : String) (a b : groupResource) :
    sortLess s a b = true ↔
      (List.Lex (· < ·) (sortKey s a).1.data (sortKey s b).1.data ∨
       ((sortKey s a).1 = (sortKey s b).1 ∧
        List.Lex (· < ·) a.APIResource.Name.data b.APIResource.Name.data)) := by
  unfold sortLess
  dsimp only
  rw [compareValues_eq_sortKey s a b]
  dsimp only
  split_ifs with h1 h2
  · rw [strLt_iff] at h1
    refine iff_of_false (by simp) ?_
    rintro (h | ⟨he, -⟩)
    · exact asymm_of (List.Lex (· < ·)) h h1
    · rw [he] at h1
      exact irrefl_of (List.Lex (· < ·)) _ h1
  · rw [strLt_iff]
    constructor
    · intro h
      exact Or.inr ⟨h2, h⟩
    · rintro (h | ⟨-, h⟩)
      · rw [h2] at h
        exact absurd h (irrefl_of (List.Lex (· < ·)) _)
      · exact h
  · rw [Bool.not_eq_true, strLt_false_iff] at h1
    refine iff_of_true rfl (Or.inl ?_)
    rcases lex_trichotomy (sortKey s a).1.data (sortKey s b).1.data with h | h | h
    · exact h
    · exact absurd (String.ext h) h2
    · exact absurd h h1

theorem sortLess_asymm {s : String} {a b : groupResource}
    (h : sortLess s a b = true) : sortLess s b a = false := by
  rw [← Bool.not_eq_true, sortLess_iff]
  rw [sortLess_iff] at h
  rcases h with h | ⟨he, hn⟩
  · rintro (h' | ⟨he', -⟩)
    · exact asymm_of (List.Lex (· < ·)) h h'
    · rw [he'] at h
      exact irrefl_of (List.Lex (· < ·)) _ h
  · rintro (h' | ⟨-, hn'⟩)
    · rw [he] at h'
      exact irrefl_of (List.Lex (· < ·)) _ h'
    · exact asymm_of (List.Lex (· < ·)) hn hn'

theorem sortLE_of_sortKey_eq {s : String} {a b : groupResource}
    (h : sortKey s a = sortKey s b) : sortLE s a b := by
  unfold sortLE
  rw [← Bool.not_eq_true, sortLess_iff]
  have h1 : (sortKey s b).1 = (sortKey s a).1 := by rw [h]
  have h2 : b.APIResource.Name = a.APIResource.Name := by
    rw [← sortKey_snd s b, ← sortKey_snd s a, h]
  rintro (hl | ⟨-, hn⟩)
  · rw [h1] at hl
    exact irrefl_of (List.Lex (· < ·)) _ hl
  · rw [h2] at hn
    exact irrefl_of (List.Lex (· < ·)) _ hn

instance (s : String) : IsTotal groupResource (sortLE s) := by
  constructor
  intro a b
  cases h : sortLess s b a with
  | false => exact Or.inl h
  | true => exact Or.inr (sortLess_asymm h)

instance (s : String) : IsTrans groupResource (sortLE s) := by
  constructor
  intro a b c hab hbc
  unfold sortLE at hab hbc ⊢
  rw [← Bool.not_eq_true, sortLess_iff] at hab hbc ⊢
  push_neg at hab hbc
  obtain ⟨hab1, hab2⟩ := hab
  obtain ⟨hbc1, hbc2⟩ := hbc
  push_neg
  constructor
  · exact not_lex_trans hab1 hbc1
  · intro hca
    have hba : (sortKey s b).1 = (sortKey s a).1 := by
      have h1 : ¬ List.Lex (· < ·) (sortKey s a).1.data (sortKey s b).1.data := by
        intro h
        apply hbc1
        rw [hca]
        exact h
      rcases lex_trichotomy (sortKey s b).1.data (sortKey s a).1.data with h | h | h
      · exact absurd h hab1
      · exact String.ext h
      · exact absurd h h1
    exact not_lex_trans (hab2 hba) (hbc2 (by rw [hca, ← hba]))

theorem sortLE_elim {s : String} {a b : groupResource} (h : sortLE s a b) :
    strLE (sortKey s a).1 (sortKey s b).1 ∧
      ((sortKey s a).1 = (sortKey s b).1 →
        strLE a.APIResource.Name b.APIResource.Name) := by
  unfold sortLE at h
  rw [← Bool.not_eq_true, sortLess_iff] at h
  push_neg at h
  exact ⟨(strLE_iff _ _).mpr h.1, fun he => (strLE_iff _ _).mpr (h.2 he.symm)⟩

theorem orderedInsert_filter_of_neg {α : Type} {r : α → α → Prop} [DecidableRel r]
    {p : α → Bool} {a : α} (ha : p a = false) :
    ∀ L : List α, (L.orderedInsert r a).filter p = L.filter p
  | [] => by simp [List.orderedInsert, List.filter_cons, ha]
  | b :: L => by
    unfold List.orderedInsert
    split_ifs with h
    · simp [List.filter_cons, ha]
    · rw [List.filter_cons, List.filter_cons, orderedInsert_filter_of_neg ha L]

theorem orderedInsert_filter_of_pos {α : Type} {r : α → α → Prop} [DecidableRel r]
    {p : α → Bool} {a : α} (ha : p a = true)
    (hskip : ∀ b, ¬ r a b → p b = false) :
    ∀ L : List α, (L.orderedInsert r a).filter p = a :: L.filter p
  | [] => by simp [List.orderedInsert, List.filter_cons, ha]
  | b :: L => by
    unfold List.orderedInsert
    split_ifs with h
    · simp [List.filter_cons, ha]
    · have hb : p b = false := hskip b h
      rw [List.filter_cons, List.filter_cons, hb, orderedInsert_filter_of_pos ha hskip L]
      simp

theorem insertionSort_filter {s : String} {p : groupResource → Bool}
    (hp : ∀ a b, p a = true → p b = true → sortLE s a b) :
    ∀ l : List groupResource, (l.insertionSort (sortLE s)).filter p = l.filter p
  | [] => rfl
  | x :: l => by
    simp only [List.insertionSort]
    cases hx : p x with
    | true =>
      have hskip : ∀ b, ¬ sortLE s x b → p b = false := by
        intro b hnb
        cases hpb : p b with
        | false => rfl
        | true => exact absurd (hp x b hx hpb) hnb
      rw [orderedInsert_filter_of_pos hx hskip, insertionSort_filter hp l,
        List.filter_cons, hx]
      simp
    | false =>
      rw [orderedInsert_filter_of_neg hx, insertionSort_filter hp l, List.filter_cons, hx]
      simp

/-! ## Claims -/

/-- **C1**: every `groupResource` entry that `RunAPIResources` appends to
the filtered output satisfies all active predicates: with the group
filter active its `APIGroup` equals the requested group, with the
namespaced filter active its resource's `Namespaced` flag equals the
requested boolean, every requested verb is among the resource's verbs,
and every requested category is among the resource's categories. -/
theorem filtered_entries_satisfy_predicates (o : APIResourceOptions)
    (lists : List APIResourceList) :
    ∀ e ∈ (ingest o lists).1,
      (o.groupChanged = true → e.APIGroup = o.APIGroup) ∧
      (o.nsChanged = true → e.APIResource.Namespaced = o.Namespaced) ∧
      (∀ v ∈ o.Verbs, v ∈ e.APIResource.Verbs) ∧
      (∀ c ∈ o.Categories, c ∈ e.APIResource.Categories) := by
  intro e he
  rcases mem_ingest_fst he with ⟨gv, hk, hg⟩
  rcases of_keepResource hk with ⟨-, hgr, hns, hv, hc⟩
  exact ⟨fun h => by rw [hg, ← hgr h], fun h => (hns h).symm, hv, hc⟩

/-- Witness for `filtered_entries_satisfy_predicates`: the `deployments`
entry survives the fully active filter configuration and satisfies every
predicate. -/
theorem filtered_entries_satisfy_predicates_witness :
    depEntry ∈ (ingest filterOpts [appsBucket, coreBucket]).1 ∧
      ((filterOpts.groupChanged = true → depEntry.APIGroup = filterOpts.APIGroup) ∧
       (filterOpts.nsChanged = true → depEntry.APIResource.Namespaced = filterOpts.Namespaced) ∧
       (∀ v ∈ filterOpts.Verbs, v ∈ depEntry.APIResource.Verbs) ∧
       (∀ c ∈ filterOpts.Categories, c ∈ depEntry.APIResource.Categories)) :=
  ⟨by decide,
   filtered_entries_satisfy_predicates filterOpts [appsBucket, coreBucket] depEntry (by decide)⟩

/-- **C2** (counterexample): with `--sort-by=name` on a catalog listing
the core bucket before the `apps` bucket, the flat list handed to the
printer carries the records in catalog order (`namespaces` before
`deployments`) while the Sorter's output is `deployments` before
`namespaces` — the printed object is not in the sorted order. -/
theorem flatList_not_in_sorted_order :
    (RunAPIResources sortNameOpts [coreBucket, appsBucket] none none).map
        (fun out => (out.flatList.APIResources.map APIResource.Name,
                     out.resources.map (fun e => e.APIResource.Name))) =
      some (["namespaces", "deployments"], ["deployments", "namespaces"]) := by
  decide

/-- **C2** (amended): the typed list object `RunAPIResources` hands to the
printer contains exactly the resource records that survived filtering, in
catalog (ingestion) order — untouched by the Sorter — and each record is
the surviving `APIResource` itself, so its name, kind, namespaced flag,
verbs and categories round-trip unchanged (the bucket's group-version is
not copied onto the record). -/
theorem flatList_is_filtered_in_ingestion_order {o : APIResourceOptions}
    {lists : List APIResourceList} {fetchErr printErr : Option String} {out : RunOutcome}
    (h : RunAPIResources o lists fetchErr printErr = some out) :
    out.flatList.APIResources = ((ingest o lists).1).map groupResource.APIResource := by
  rcases RunAPIResources_some h with ⟨-, hflat, -⟩
  rw [hflat, ingest_proj]

/-- Witness for `flatList_is_filtered_in_ingestion_order` on Scenario A's
catalog. -/
theorem flatList_is_filtered_in_ingestion_order_witness :
    RunAPIResources noFilter [appsBucket, coreBucket] none none = some scenarioAOutcome ∧
      scenarioAOutcome.flatList.APIResources =
        ((ingest noFilter [appsBucket, coreBucket]).1).map groupResource.APIResource :=
  ⟨by decide,
   @flatList_is_filtered_in_ingestion_order noFilter [appsBucket, coreBucket] none none
     scenarioAOutcome (by decide)⟩

/-- **C5** (code bug): on an empty catalog — or one in which every bucket
is dropped at ingestion (no resources, malformed group-version) — the
flat-list construction reads `allResources[0]` out of bounds and
`RunAPIResources` faults instead of rendering an empty result set. -/
theorem empty_catalog_faults :
    RunAPIResources noFilter [] none none = none ∧
    RunAPIResources noFilter [emptyBucket, badGVBucket] none none = none := by
  decide

/-- **C6** (code bug): a fetch error is appended to the local `errs` slice
but never surfaced — on a catalog fetch that returns an error alongside
two usable buckets, the pipeline still filters, sorts and renders both
rows, and `RunAPIResources` returns the printer's outcome (`none`), not
the fetch error. -/
theorem fetch_error_not_surfaced :
    (RunAPIResources noFilter [appsBucket, coreBucket] (some "the server is unreachable") none).map
        (fun out => (out.retErr, out.resources.length)) = some (none, 2) := by
  decide

/-- **C7**: a resource with an empty verb list is dropped at ingestion and
appears neither among the filtered entries, nor in the sorted slice, nor
among the records of the flat list handed to the printer. -/
theorem empty_verbs_never_in_output (o : APIResourceOptions) (lists : List APIResourceList)
    (fetchErr printErr : Option String) :
    (∀ e ∈ (ingest o lists).1, e.APIResource.Verbs ≠ []) ∧
    ∀ out, RunAPIResources o lists fetchErr printErr = some out →
      (∀ e ∈ out.resources, e.APIResource.Verbs ≠ []) ∧
      (∀ r ∈ out.flatList.APIResources, r.Verbs ≠ []) := by
  have h1 : ∀ e ∈ (ingest o lists).1, e.APIResource.Verbs ≠ [] := by
    intro e he
    rcases mem_ingest_fst he with ⟨gv, hk, -⟩
    exact (of_keepResource hk).1
  refine ⟨h1, ?_⟩
  intro out hout
  rcases RunAPIResources_some hout with ⟨hres, hflat, -⟩
  constructor
  · intro e he
    rw [hres] at he
    unfold sortStable at he
    exact h1 e ((List.mem_insertionSort _).mp he)
  · intro r hr
    rw [hflat] at hr
    rcases mem_ingest_snd hr with ⟨gv, hk⟩
    exact (of_keepResource hk).1

/-- Witness for `empty_verbs_never_in_output`: the `deployments` entry of
Scenario A's output indeed carries a non-empty verb list. -/
theorem empty_verbs_never_in_output_witness :
    depEntry ∈ (ingest noFilter [appsBucket, coreBucket]).1 ∧
      depEntry.APIResource.Verbs ≠ [] :=
  ⟨by decide,
   (empty_verbs_never_in_output noFilter [appsBucket, coreBucket] none none).1 depEntry
     (by decide)⟩

/-- **C9**: a bucket whose group-version string fails to parse is skipped,
and the whole outcome of `RunAPIResources` — rows, flat list and returned
error alike — equals the outcome on the catalog without that bucket. -/
theorem malformed_bucket_skipped (o : APIResourceOptions)
    (pre post : List APIResourceList) (b : APIResourceList)
    (fetchErr printErr : Option String)
    (hb : ParseGroupVersion b.GroupVersion = none) :
    RunAPIResources o (pre ++ b :: post) fetchErr printErr =
    RunAPIResources o (pre ++ post) fetchErr printErr := by
  have hpb : processList o b = none := by
    unfold processList
    split_ifs with h0
    · rfl
    · rw [hb]
  have hi : ingest o (pre ++ b :: post) = ingest o (pre ++ post) := by
    unfold ingest
    rw [List.filterMap_append, List.filterMap_append, List.filterMap_cons_none hpb]
  unfold RunAPIResources
  rw [hi]

/-- Witness for `malformed_bucket_skipped`: dropping the `a/b/c` bucket
from Scenario A's catalog does not change the outcome. -/
theorem malformed_bucket_skipped_witness :
    ParseGroupVersion badGVBucket.GroupVersion = none ∧
      RunAPIResources noFilter [appsBucket, badGVBucket, coreBucket] none none =
        RunAPIResources noFilter [appsBucket, coreBucket] none none :=
  ⟨by decide,
   malformed_bucket_skipped noFilter [appsBucket] [coreBucket] badGVBucket none none (by decide)⟩

/-- **C10**: the object `RunAPIResources` hands to the printer does not
depend on the sort key — the `sort.Stable` call touches only the
`resources` slice, not the flat list — so two runs differing only in
`SortBy` print the same output. -/
theorem printed_object_independent_of_sort_key (o : APIResourceOptions)
    (lists : List APIResourceList) (fetchErr printErr : Option String) (s₁ s₂ : String) :
    (RunAPIResources { o with SortBy := s₁ } lists fetchErr printErr).map RunOutcome.flatList =
    (RunAPIResources { o with SortBy := s₂ } lists fetchErr printErr).map RunOutcome.flatList := by
  unfold RunAPIResources
  dsimp only
  rw [ingest_sortBy o s₁, ingest_sortBy o s₂]
  cases mkFlatList (ingest o lists).2 <;> rfl

theorem sortStable_filter_eq (s : String) (l : List groupResource) (K : String × String) :
    (sortStable s l).filter (fun e => decide (sortKey s e = K)) =
      l.filter (fun e => decide (sortKey s e = K)) := by
  unfold sortStable
  apply insertionSort_filter
  intro a b ha hb
  have ha' : sortKey s a = K := of_decide_eq_true ha
  have hb' : sortKey s b = K := of_decide_eq_true hb
  exact sortLE_of_sortKey_eq (ha'.trans hb'.symm)

/-- **C3**: sorting with `sortBy="name"` yields resource names
non-decreasing under byte-wise lexicographic comparison; with
`sortBy="kind"` kinds are non-decreasing and any two entries with equal
kinds are ordered by resource name ascending; with the sort key unset the
entries are ordered by the owning `APIGroup` string with resource name as
the tie-break. -/
theorem sorted_by_requested_key (l : List groupResource) :
    ((sortStable "name" l).Pairwise
      (fun a b => strLE a.APIResource.Name b.APIResource.Name)) ∧
    ((sortStable "kind" l).Pairwise
      (fun a b => strLE a.APIResource.Kind b.APIResource.Kind ∧
        (a.APIResource.Kind = b.APIResource.Kind →
          strLE a.APIResource.Name b.APIResource.Name))) ∧
    ((sortStable "" l).Pairwise
      (fun a b => strLE a.APIGroup b.APIGroup ∧
        (a.APIGroup = b.APIGroup → strLE a.APIResource.Name b.APIResource.Name))) := by
  refine ⟨?_, ?_, ?_⟩
  · refine List.Pairwise.imp ?_ (List.sorted_insertionSort (sortLE "name") l)
    intro a b hab
    exact (sortLE_elim hab).1
  · refine List.Pairwise.imp ?_ (List.sorted_insertionSort (sortLE "kind") l)
    intro a b hab
    exact sortLE_elim hab
  · refine List.Pairwise.imp ?_ (List.sorted_insertionSort (sortLE "") l)
    intro a b hab
    exact sortLE_elim hab

/-- Witness for `sorted_by_requested_key` on the two Scenario A entries. -/
theorem sorted_by_requested_key_witness :
    ((sortStable "name" [depEntry, nsEntry]).Pairwise
      (fun a b => strLE a.APIResource.Name b.APIResource.Name)) ∧
    ((sortStable "kind" [depEntry, nsEntry]).Pairwise
      (fun a b => strLE a.APIResource.Kind b.APIResource.Kind ∧
        (a.APIResource.Kind = b.APIResource.Kind →
          strLE a.APIResource.Name b.APIResource.Name))) ∧
    ((sortStable "" [depEntry, nsEntry]).Pairwise
      (fun a b => strLE a.APIGroup b.APIGroup ∧
        (a.APIGroup = b.APIGroup → strLE a.APIResource.Name b.APIResource.Name))) :=
  sorted_by_requested_key [depEntry, nsEntry]

/-- **C4**: the sort performed by `RunAPIResources` is stable — for every
input list, sort key and value of the full comparison key (primary field
plus tie-break name), the subsequence of entries carrying that key is
left exactly as it was in the input, both for `sortStable` itself and for
the `resources` slice of the run's outcome relative to the ingestion
order. -/
theorem sort_preserves_order_of_equal_keys :
    (∀ (s : String) (l : List groupResource) (K : String × String),
      (sortStable s l).filter (fun e => decide (sortKey s e = K)) =
        l.filter (fun e => decide (sortKey s e = K))) ∧
    (∀ (o : APIResourceOptions) (lists : List APIResourceList)
        (fetchErr printErr : Option String) (out : RunOutcome) (K : String × String),
      RunAPIResources o lists fetchErr printErr = some out →
        out.resources.filter (fun e => decide (sortKey o.SortBy e = K)) =
          ((ingest o lists).1).filter (fun e => decide (sortKey o.SortBy e = K))) := by
  constructor
  · exact sortStable_filter_eq
  · intro o lists fetchErr printErr out K hout
    rcases RunAPIResources_some hout with ⟨hres, -, -⟩
    rw [hres]
    exact sortStable_filter_eq o.SortBy (ingest o lists).1 K

/-- Witness for `sort_preserves_order_of_equal_keys` on Scenario A's
catalog at the key of the `deployments` entry. -/
theorem sort_preserves_order_of_equal_keys_witness :
    RunAPIResources noFilter [appsBucket, coreBucket] none none = some scenarioAOutcome ∧
      scenarioAOutcome.resources.filter
          (fun e => decide (sortKey noFilter.SortBy e = ("apps", "deployments"))) =
        ((ingest noFilter [appsBucket, coreBucket]).1).filter
          (fun e => decide (sortKey noFilter.SortBy e = ("apps", "deployments"))) :=
  ⟨by decide,
   sort_preserves_order_of_equal_keys.2 noFilter [appsBucket, coreBucket] none none
     scenarioAOutcome ("apps", "deployments") (by decide)⟩

/-- Witness for `printed_object_independent_of_sort_key`: sorting by name
or by kind prints the same object on Scenario A's catalog. -/
theorem printed_object_independent_of_sort_key_witness :
    (RunAPIResources { noFilter with SortBy := "name" } [appsBucket, coreBucket] none none).map
        RunOutcome.flatList =
      (RunAPIResources { noFilter with SortBy := "kind" } [appsBucket, coreBucket] none none).map
        RunOutcome.flatList :=
  printed_object_independent_of_sort_key noFilter [appsBucket, coreBucket] none none
    "name" "kind"

/-- **C8**: `Validate` accepts exactly the sort keys `""`, `"name"` and
`"kind"`; on any other value the command's `Run` sequence stops with the
configuration error before `RunAPIResources` — and hence before any
catalog fetch — runs, so the outcome is the same error for every catalog
and no output object is produced. -/
theorem validate_sort_key (o : APIResourceOptions) :
    (Validate o = none ↔ (o.SortBy = "" ∨ o.SortBy = "name" ∨ o.SortBy = "kind")) ∧
    (Validate o ≠ none →
      ∀ lists lists' : List APIResourceList, ∀ fe fe' pe pe' : Option String,
        cmdRun o lists fe pe = Except.error "--sort-by accepts only name or kind" ∧
        cmdRun o lists fe pe = cmdRun o lists' fe' pe') := by
  constructor
  · by_cases hd : o.SortBy = "" ∨ o.SortBy = "name" ∨ o.SortBy = "kind"
    · refine iff_of_true ?_ hd
      rcases hd with h | h | h <;> simp [Validate, h]
    · have hne : o.SortBy ≠ "" := fun h => hd (Or.inl h)
      have hlen : o.SortBy.length > 0 := by
        by_contra h
        exact hne (length_zero_eq_empty h)
      have hmem : ¬ o.SortBy ∈ (["", "name", "kind"] : List String) := by simpa using hd
      refine iff_of_false ?_ hd
      simp [Validate, hlen, hmem]
  · intro hne lists lists' fe fe' pe pe'
    rcases Validate_none_or_msg o with h | h
    · exact absurd h hne
    · unfold cmdRun
      rw [h]
      exact ⟨rfl, rfl⟩

/-- Witness for `validate_sort_key`: `--sort-by=bogus` is rejected and the
invocation ends in the configuration error without running the pipeline. -/
theorem validate_sort_key_witness :
    Validate bogusOpts ≠ none ∧
      cmdRun bogusOpts [appsBucket] none none =
        Except.error "--sort-by accepts only name or kind" :=
  ⟨by decide,
   ((validate_sort_key bogusOpts).2 (by decide) [appsBucket] [] none none none none).1⟩

end KubectlAPIResources
